import Mathlib

/-!
Verification of the GitHub Sourcing Engine (`src/app.py`).

The file shallowly embeds the decision logic of the dashboard: the search
client `fetch_repos`, the star-velocity estimator `get_star_velocity`, the
momentum classifier `bucket_repo`, and the scan block guarded by
`run_pressed`.  Network effects are modelled by explicit oracles: a call to
the stargazer endpoint is a function from page numbers to `PageFetch`
outcomes, and the single search request is a `SearchResult` value.
Timestamps are integers (seconds), so `timedelta(days=7)` is `7 * 86400`.
-/

/-- One element of a decoded stargazer page.  `missing` models an object
whose `starred_at` field is absent or falsy (`star.get("starred_at")`
yields `None` or `""`, line 142-143), `malformed` one whose string makes
`datetime.strptime` raise (line 144), and `ts t` one that parses to the
timestamp `t`. -/
inductive StarEvent where
  | missing : StarEvent
  | malformed : StarEvent
  | ts : Int → StarEvent
deriving DecidableEq

/-- Outcome of one `requests.get` of a stargazer page (lines 136-139).
`exn` models a transport or JSON-decoding exception caught by the
`except Exception` handler; `resp status data` a response with the given
status code and decoded body. -/
inductive PageFetch where
  | exn : PageFetch
  | resp : Nat → List StarEvent → PageFetch
deriving DecidableEq

/-- Result of the `for star in reversed(data)` loop (lines 141-148),
run on the already-reversed page: `cont c` means the page was exhausted
with running count `c` (the `while` loop proceeds to the previous page),
`ret c` means an in-range-or-older event caused `return count_7_days`
with value `c`, and `exn c` means `strptime` raised, so the `except`
handler breaks out of the `while` loop with count `c`. -/
inductive ScanOut where
  | cont : Nat → ScanOut
  | ret : Nat → ScanOut
  | exn : Nat → ScanOut
deriving DecidableEq

/-- The body of the `for star in reversed(data)` loop of
`get_star_velocity` (lines 141-148), applied to the reversed page. -/
def scanPage (cutoff : Int) : List StarEvent → Nat → ScanOut
  | [], count => .cont count
  | .missing :: rest, count => scanPage cutoff rest count
  | .malformed :: _, count => .exn count
  | .ts t :: rest, count =>
    if cutoff < t then scanPage cutoff rest (count + 1) else .ret count

/-- The numeric payload of a `ScanOut`. -/
def scanOutVal : ScanOut → Nat
  | .cont c => c
  | .ret c => c
  | .exn c => c

/-- The `while pages_checked < max_pages_to_check and current_page > 0`
loop of `get_star_velocity` (lines 132-152), with `max_pages_to_check = 5`
and `per_page = 100` inlined as in the source.  The loop additionally
accumulates the list of page numbers it requested (`log`), which the
source discharges implicitly as HTTP calls; the count returned is the
first component. -/
def velocityLoop (fetch : Nat → PageFetch) (cutoff : Int) :
    Nat → Nat → Nat → List Nat → Nat × List Nat
  | 0, _, count, log => (count, log)
  | cp + 1, pagesChecked, count, log =>
    if pagesChecked < 5 then
      match fetch (cp + 1) with
      | .exn => (count, log ++ [cp + 1])
      | .resp status data =>
        if status ≠ 200 then (count, log ++ [cp + 1])
        else if data = [] then (count, log ++ [cp + 1])
        else
          match scanPage cutoff data.reverse count with
          | .ret c => (c, log ++ [cp + 1])
          | .exn c => (c, log ++ [cp + 1])
          | .cont c => velocityLoop fetch cutoff cp (pagesChecked + 1) c (log ++ [cp + 1])
    else (count, log)

/-- Lines 123-124: `last_page = (total_stars // per_page) + 1`, clamped
to `400`. -/
def lastPage (total_stars : Nat) : Nat :=
  if total_stars / 100 + 1 > 400 then 400 else total_stars / 100 + 1

/-- `get_star_velocity(owner, repo, total_stars)` (lines 118-154).  The
owner/repo pair is absorbed into the fetch oracle; `cutoff` stands for
`datetime.now() - timedelta(days=7)`.  The function is total (every
exception of the source is caught by the handlers inside), and it is
instrumented to also return the list of requested page numbers. -/
def get_star_velocity (fetch : Nat → PageFetch) (cutoff : Int) (total_stars : Nat) :
    Nat × List Nat :=
  if total_stars = 0 then (0, [])
  else velocityLoop fetch cutoff (lastPage total_stars) 0 0 []

/-- The closed set of momentum tiers.  Constructors correspond to the
source's label strings: `breakoutHuge` = "Breakout (Huge)", `breakout` =
"Breakout", `growing` = "Growing", `early` = "Early". -/
inductive Tier where
  | breakoutHuge : Tier
  | breakout : Tier
  | growing : Tier
  | early : Tier
deriving DecidableEq

/-- `bucket_repo(velocity, stars)` (lines 156-160).  Velocity and star
counts are natural numbers in the source (an event count and the API's
`stargazers_count`). -/
def bucket_repo (velocity stars : Nat) : Tier :=
  if stars > 40000 ∧ velocity = 0 then .breakoutHuge
  else if velocity > 50 then .breakout
  else if velocity > 10 then .growing
  else .early

/-- Modelled from the spec's classifier decision list (section 4.3), to be
compared with `bucket_repo`: rule 1 `total_stars > 40000 AND velocity == 0`,
rule 2 `velocity > 50`, rule 3 `velocity > 10`, rule 4 otherwise, first
match wins. -/
def classify_spec (velocity stars : Nat) : Tier :=
  if stars > 40000 ∧ velocity = 0 then .breakoutHuge
  else if velocity > 50 then .breakout
  else if velocity > 10 then .growing
  else .early

/-- A repository summary as taken from the search response `items` array
(fields read at lines 229-239). -/
structure Repo where
  owner_login : String
  name : String
  description : Option String
  stargazers_count : Nat
  html_url : String
deriving DecidableEq

/-- Outcome of the one search request of `fetch_repos` (lines 110-116):
`exn` models a transport or JSON-decoding exception, `resp status items`
a response with the given status whose decoded body has the given
`items` array (`none` when the key is absent, line 114). -/
inductive SearchResult where
  | exn : SearchResult
  | resp : Nat → Option (List Repo) → SearchResult

/-- `fetch_repos(topic, limit)` (lines 106-116); the topic and limit are
absorbed into the `SearchResult` oracle. -/
def fetch_repos : SearchResult → List Repo
  | .exn => []
  | .resp status items => if status ≠ 200 then [] else items.getD []

/-- A row of the `results` list built at lines 232-240. -/
structure ScanRow where
  name : String
  description : Option String
  stars : Nat
  velocity : Nat
  bucket : Tier
  url : String
  owner : String
deriving DecidableEq

/-- One iteration of the `for i, repo in enumerate(repos)` loop
(lines 227-240): compute the velocity, classify it, and assemble the row. -/
def mkRow (fetchStars : Repo → Nat → PageFetch) (cutoff : Int) (repo : Repo) : ScanRow :=
  let velocity := (get_star_velocity (fetchStars repo) cutoff repo.stargazers_count).1
  { name := repo.name
    description := repo.description
    stars := repo.stargazers_count
    velocity := velocity
    bucket := bucket_repo velocity repo.stargazers_count
    url := repo.html_url
    owner := repo.owner_login }

/-- The descending-velocity comparison used by
`df.sort_values(by="Velocity (7d)", ascending=False)` (line 247). -/
def velGe (a b : ScanRow) : Bool := b.velocity ≤ a.velocity

/-- The scan of the `if run_pressed:` block (lines 218-247): fetch the
repositories, build one row per repository in input order, and sort the
result set by velocity descending. -/
def run_scan (searchResult : SearchResult) (fetchStars : Repo → Nat → PageFetch)
    (cutoff : Int) : List ScanRow :=
  let repos := fetch_repos searchResult
  let results := repos.map (mkRow fetchStars cutoff)
  results.mergeSort velGe

/-- The scan block together with the sidebar state it closes over:
`days_back` is the `st.slider("Lookback (Days)", 1, 30, 7)` value
(line 180), in scope but never read by the computation, and the cutoff
used is `datetime.now() - timedelta(days=7)` (line 127). -/
def runApp (days_back : Nat) (now : Int) (searchResult : SearchResult)
    (fetchStars : Repo → Nat → PageFetch) : List ScanRow :=
  run_scan searchResult fetchStars (now - 7 * 86400)

/-- The page-`p` slice (1-indexed, `per_page = 100`) of a full event
history listed oldest first, as the stargazer endpoint serves it. -/
def pageSlice (events : List StarEvent) (p : Nat) : List StarEvent :=
  (events.take (100 * p)).drop (100 * (p - 1))

/-- A fetch oracle consistent with a fixed paginated event history:
page `p` answers with status 200 and the page-`p` slice of `events`. -/
def honestFetch (events : List StarEvent) (p : Nat) : PageFetch :=
  .resp 200 (pageSlice events p)

/-- The contiguous slice of `l` covered by pages `p-b+1 .. p`
(`per_page = 100`); `sliceTD l p 1` is the page-`p` slice. -/
def sliceTD {α : Type} (l : List α) (p b : Nat) : List α :=
  (l.take (100 * p)).drop (100 * (p - b))

/-- A page fetch that terminates the walk at lines 137-139 or 151-152:
a transport/decoding exception, a non-success status, or an empty body. -/
def fetchFails : PageFetch → Prop
  | .exn => True
  | .resp status data => status ≠ 200 ∨ data = []

/-- A search request that fails in the sense of lines 112-116: a
transport/decoding exception or a non-success status. -/
def searchFails : SearchResult → Prop
  | .exn => True
  | .resp status _ => status ≠ 200

/-- The length of the decoded body carried by a `PageFetch`. -/
def dataLen : PageFetch → Nat
  | .exn => 0
  | .resp _ data => data.length

theorem velocityLoop_zero (f : Nat → PageFetch) (c : Int) (pc count : Nat) (log : List Nat) :
    velocityLoop f c 0 pc count log = (count, log) := rfl

theorem velocityLoop_succ (f : Nat → PageFetch) (c : Int) (p pc count : Nat) (log : List Nat) :
    velocityLoop f c (p + 1) pc count log =
      if pc < 5 then
        match f (p + 1) with
        | .exn => (count, log ++ [p + 1])
        | .resp status data =>
          if status ≠ 200 then (count, log ++ [p + 1])
          else if data = [] then (count, log ++ [p + 1])
          else
            match scanPage c data.reverse count with
            | .ret x => (x, log ++ [p + 1])
            | .exn x => (x, log ++ [p + 1])
            | .cont x => velocityLoop f c p (pc + 1) x (log ++ [p + 1])
      else (count, log) := rfl

theorem scanOutVal_ge (c : Int) :
    ∀ (l : List StarEvent) (count : Nat), count ≤ scanOutVal (scanPage c l count)
  | [], _ => le_refl _
  | .missing :: rest, count => scanOutVal_ge c rest count
  | .malformed :: _, _ => le_refl _
  | .ts t :: rest, count => by
    simp only [scanPage]
    split
    · exact le_trans (Nat.le_succ _) (scanOutVal_ge c rest (count + 1))
    · exact le_refl _

theorem scanOutVal_le (c : Int) :
    ∀ (l : List StarEvent) (count : Nat), scanOutVal (scanPage c l count) ≤ count + l.length
  | [], count => Nat.le_add_right _ _
  | .missing :: rest, count =>
    le_trans (scanOutVal_le c rest count) (by simp only [List.length_cons]; omega)
  | .malformed :: _, count => Nat.le_add_right _ _
  | .ts t :: rest, count => by
    simp only [scanPage]
    split
    · exact le_trans (scanOutVal_le c rest (count + 1))
        (by simp only [List.length_cons]; omega)
    · exact Nat.le_add_right _ _

/-- One step of the page walk, for `pagesChecked < 5`: either the walk
stops at the current page, or it recurses on the previous page; in both
cases the count moved by at most the fetched body's length and did not
decrease, and exactly the current page was appended to the request log. -/
theorem velocityLoop_succ_elim (f : Nat → PageFetch) (c : Int) (p pc count : Nat)
    (log : List Nat) (hpc : pc < 5) :
    (∃ x, velocityLoop f c (p + 1) pc count log = (x, log ++ [p + 1]) ∧
      count ≤ x ∧ x ≤ count + dataLen (f (p + 1))) ∨
    (∃ x, velocityLoop f c (p + 1) pc count log =
        velocityLoop f c p (pc + 1) x (log ++ [p + 1]) ∧
      count ≤ x ∧ x ≤ count + dataLen (f (p + 1))) := by
  rw [velocityLoop_succ, if_pos hpc]
  cases hf : f (p + 1) with
  | exn => exact Or.inl ⟨count, rfl, le_refl _, Nat.le_add_right _ _⟩
  | resp status data =>
    dsimp only
    by_cases hs : status ≠ 200
    · rw [if_pos hs]
      exact Or.inl ⟨count, rfl, le_refl _, Nat.le_add_right _ _⟩
    · rw [if_neg hs]
      by_cases hd : data = []
      · rw [if_pos hd]
        exact Or.inl ⟨count, rfl, le_refl _, Nat.le_add_right _ _⟩
      · rw [if_neg hd]
        have h1 := scanOutVal_ge c data.reverse count
        have h2 := scanOutVal_le c data.reverse count
        cases hsc : scanPage c data.reverse count with
        | ret x =>
          rw [hsc] at h1 h2
          exact Or.inl ⟨x, rfl, h1, by simpa [scanOutVal, dataLen] using h2⟩
        | exn x =>
          rw [hsc] at h1 h2
          exact Or.inl ⟨x, rfl, h1, by simpa [scanOutVal, dataLen] using h2⟩
        | cont x =>
          rw [hsc] at h1 h2
          exact Or.inr ⟨x, rfl, h1, by simpa [scanOutVal, dataLen] using h2⟩

theorem velocityLoop_len (f : Nat → PageFetch) (c : Int) :
    ∀ (p pc count : Nat) (log : List Nat),
      ((velocityLoop f c p pc count log).2).length ≤ log.length + (5 - pc)
  | 0, pc, count, log => by simp [velocityLoop_zero]
  | p + 1, pc, count, log => by
    by_cases hpc : pc < 5
    · rcases velocityLoop_succ_elim f c p pc count log hpc with
        ⟨x, heq, -, -⟩ | ⟨x, heq, -, -⟩
      · rw [heq]; simp; omega
      · rw [heq]
        have h := velocityLoop_len f c p (pc + 1) x (log ++ [p + 1])
        simp only [List.length_append, List.length_cons, List.length_nil] at h ⊢
        omega
    · rw [velocityLoop_succ, if_neg hpc]; simp

theorem velocityLoop_log_grows (f : Nat → PageFetch) (c : Int) :
    ∀ (p pc count : Nat) (log : List Nat),
      ∃ t, (velocityLoop f c p pc count log).2 = log ++ t
  | 0, _, _, log => ⟨[], (List.append_nil log).symm⟩
  | p + 1, pc, count, log => by
    by_cases hpc : pc < 5
    · rcases velocityLoop_succ_elim f c p pc count log hpc with
        ⟨x, heq, -, -⟩ | ⟨x, heq, -, -⟩
      · exact ⟨[p + 1], by rw [heq]⟩
      · obtain ⟨t, ht⟩ := velocityLoop_log_grows f c p (pc + 1) x (log ++ [p + 1])
        exact ⟨[p + 1] ++ t, by rw [heq, ht, List.append_assoc]⟩
    · exact ⟨[], by rw [velocityLoop_succ, if_neg hpc, List.append_nil]⟩

theorem velocityLoop_head (f : Nat → PageFetch) (c : Int) (p pc count : Nat) (hpc : pc < 5) :
    ((velocityLoop f c (p + 1) pc count []).2).head? = some (p + 1) := by
  rcases velocityLoop_succ_elim f c p pc count [] hpc with
    ⟨x, heq, -, -⟩ | ⟨x, heq, -, -⟩
  · rw [heq]; rfl
  · rw [heq]
    obtain ⟨t, ht⟩ := velocityLoop_log_grows f c p (pc + 1) x ([] ++ [p + 1])
    rw [ht]; rfl

/-- C3: for every velocity `v` and star count `s`, `bucket_repo` equals the
spec's ordered first-match-wins decision list; in particular
`bucket_repo 0 50000 = breakoutHuge` (rule 1 precedes rule 4), and the
thresholds are strict: `bucket_repo 51 s = breakout`,
`bucket_repo 50 s = growing`, `bucket_repo 11 s = growing`,
`bucket_repo 10 s = early` for every `s` (velocities 51, 50, 11 and 10 are
nonzero, so rule 1 cannot fire for them at any `s`). -/
theorem bucket_repo_decision_list (velocity stars : Nat) :
    bucket_repo velocity stars = classify_spec velocity stars ∧
    bucket_repo 0 50000 = Tier.breakoutHuge ∧
    bucket_repo 51 stars = Tier.breakout ∧
    bucket_repo 50 stars = Tier.growing ∧
    bucket_repo 11 stars = Tier.growing ∧
    bucket_repo 10 stars = Tier.early := by
  refine ⟨rfl, by decide, ?_, ?_, ?_, ?_⟩ <;> simp [bucket_repo]

/-- C9: during a page scan, an event whose `starred_at` is missing or empty
is skipped: deleting it from any position of the scanned page changes
nothing — it neither increments the count nor triggers the early-exit
return, and the scan continues with the next event of the page. -/
theorem scanPage_skips_missing (c : Int) :
    ∀ (l1 l2 : List StarEvent) (count : Nat),
      scanPage c (l1 ++ StarEvent.missing :: l2) count = scanPage c (l1 ++ l2) count
  | [], l2, count => rfl
  | .missing :: rest, l2, count => by
    simp only [List.cons_append, scanPage]
    exact scanPage_skips_missing c rest l2 count
  | .malformed :: _, l2, count => rfl
  | .ts t :: rest, l2, count => by
    simp only [List.cons_append, scanPage]
    split
    · exact scanPage_skips_missing c rest l2 (count + 1)
    · rfl

/-- C10: the trailing window is fixed at 7 days — the scan uses
`cutoff = now - 7 days` and never reads the `days_back` slider, so two runs
identical except for the slider value return identical results. -/
theorem velocity_ignores_days_back (d1 d2 : Nat) (now : Int) (sr : SearchResult)
    (fs : Repo → Nat → PageFetch) :
    runApp d1 now sr fs = runApp d2 now sr fs ∧
    runApp d1 now sr fs = run_scan sr fs (now - 7 * 86400) :=
  ⟨rfl, rfl⟩

/-- C4: a single estimation call issues at most 5 page fetches for every
fetch oracle, cutoff and star count; and with `total_stars = 0` it returns
0 with an empty request log, i.e. issues no fetch at all. -/
theorem velocity_page_budget (f : Nat → PageFetch) (c : Int) (total : Nat) :
    ((get_star_velocity f c total).2).length ≤ 5 ∧
      get_star_velocity f c 0 = (0, []) := by
  refine ⟨?_, rfl⟩
  unfold get_star_velocity
  by_cases h : total = 0
  · simp [h]
  · rw [if_neg h]
    simpa using velocityLoop_len f c (lastPage total) 0 0 []

/-- C1 counterexample: with `total_stars = 1` and a page fetch answering
with two in-window events, the estimator returns 2 > 1, so the bound
`result ≤ total_stars` fails for arbitrary page-fetch results. -/
theorem velocity_upper_cex :
    ¬ ((get_star_velocity
        (fun _ => PageFetch.resp 200 [StarEvent.ts 1, StarEvent.ts 2]) 0 1).1 ≤ 1) := by
  decide

theorem velocityLoop_honest_le (events : List StarEvent) (c : Int) :
    ∀ (p pc count : Nat) (log : List Nat),
      (velocityLoop (honestFetch events) c p pc count log).1 ≤
        count + (events.take (100 * p)).length
  | 0, pc, count, log => by simp [velocityLoop_zero]
  | p + 1, pc, count, log => by
    have hlen : dataLen (honestFetch events (p + 1)) =
        min (100 * (p + 1)) events.length - 100 * p := by
      simp [honestFetch, dataLen, pageSlice, List.length_drop, List.length_take]
    by_cases hpc : pc < 5
    · rcases velocityLoop_succ_elim (honestFetch events) c p pc count log hpc with
        ⟨x, heq, -, hx⟩ | ⟨x, heq, -, hx⟩
      · rw [heq]
        simp only [List.length_take]
        omega
      · rw [heq]
        have h := velocityLoop_honest_le events c p (pc + 1) x (log ++ [p + 1])
        simp only [List.length_take] at h hx ⊢
        omega
    · rw [velocityLoop_succ, if_neg hpc]
      exact Nat.le_add_right _ _

/-- C1 (amended): the returned count is a natural number, hence
non-negative, and it is bounded by `total_stars` whenever the page fetches
are consistent with a single paginated history of `total_stars` events
(100 per page, oldest first) — the consistency hypothesis is necessary by
`velocity_upper_cex`. -/
theorem velocity_bounds (events : List StarEvent) (c : Int) :
    0 ≤ (get_star_velocity (honestFetch events) c events.length).1 ∧
      (get_star_velocity (honestFetch events) c events.length).1 ≤ events.length := by
  refine ⟨Nat.zero_le _, ?_⟩
  unfold get_star_velocity
  by_cases h : events.length = 0
  · simp [h]
  · rw [if_neg h]
    have hb := velocityLoop_honest_le events c (lastPage events.length) 0 0 []
    simp only [List.length_take, Nat.zero_add] at hb
    omega

/-- C5 counterexample: at `total_stars = 100` the estimator requests page
`100 // 100 + 1 = 2` first, but the last page of a 100-event history is
`ceil(100 / 100) = 1`, so the claimed equality with `ceil` fails (page 2
of an honest 100-event history is empty, as the request log shows). -/
theorem first_page_cex :
    (get_star_velocity (fun _ => PageFetch.resp 200 []) 0 100).2 = [2] ∧
      2 ≠ (100 + 99) / 100 := by decide

/-- C5 (amended): for every `total_stars ≥ 1` the first page requested is
`total_stars / 100 + 1` clamped to 400 (`lastPage`), and this equals
`ceil(total_stars / 100)` exactly under the proviso that `total_stars` is
not a multiple of 100 and is at most 40000 (for multiples of 100 the code
overshoots by one page, and beyond 40000 the clamp takes over). -/
theorem first_page_requested (f : Nat → PageFetch) (c : Int) (total : Nat)
    (h1 : 1 ≤ total) :
    ((get_star_velocity f c total).2).head? = some (lastPage total) ∧
    lastPage total ≤ 400 ∧
    (¬ 100 ∣ total → total ≤ 40000 → lastPage total = (total + 99) / 100) := by
  refine ⟨?_, ?_, ?_⟩
  · unfold get_star_velocity
    rw [if_neg (by omega)]
    obtain ⟨q, hq⟩ : ∃ q, lastPage total = q + 1 :=
      ⟨lastPage total - 1, by unfold lastPage; split <;> omega⟩
    rw [hq]
    exact velocityLoop_head f c q 0 0 (by omega)
  · unfold lastPage; split <;> omega
  · intro hmod hle
    unfold lastPage
    rw [if_neg (by omega)]
    omega

theorem first_page_requested_w :
    ((get_star_velocity (fun _ => PageFetch.exn) 0 150).2).head? = some (lastPage 150) ∧
    lastPage 150 ≤ 400 ∧
    (¬ 100 ∣ 150 → 150 ≤ 40000 → lastPage 150 = (150 + 99) / 100) :=
  first_page_requested (fun _ => PageFetch.exn) 0 150 (by decide)

/-- C6: if, at the current page of the walk, the fetch fails (transport or
decoding exception, non-success status, or an empty body) or the page scan
raises while parsing a timestamp, the walk stops — exactly this page is
added to the request log and no further page is fetched — and the count
accumulated so far (`count`, plus any events already counted inside the
failing page) is returned.  The estimator itself is a total function, so
no exception reaches the caller. -/
theorem velocity_fail_stops (f : Nat → PageFetch) (c : Int) (p pc count : Nat)
    (log : List Nat) (hpc : pc < 5)
    (hfail : fetchFails (f (p + 1)) ∨
      ∃ data, f (p + 1) = PageFetch.resp 200 data ∧ data ≠ [] ∧
        ∃ x, scanPage c data.reverse count = ScanOut.exn x) :
    ∃ x, count ≤ x ∧ velocityLoop f c (p + 1) pc count log = (x, log ++ [p + 1]) := by
  rw [velocityLoop_succ, if_pos hpc]
  rcases hfail with hf | ⟨data, hdata, hne, x, hx⟩
  · cases hfe : f (p + 1) with
    | exn => exact ⟨count, le_refl _, rfl⟩
    | resp status data =>
      rw [hfe] at hf
      have hf' : status ≠ 200 ∨ data = [] := hf
      dsimp only
      rcases hf' with hs | hd
      · rw [if_pos hs]
        exact ⟨count, le_refl _, rfl⟩
      · by_cases hs : status ≠ 200
        · rw [if_pos hs]
          exact ⟨count, le_refl _, rfl⟩
        · rw [if_neg hs, if_pos hd]
          exact ⟨count, le_refl _, rfl⟩
  · rw [hdata]
    dsimp only
    rw [if_neg (by simp), if_neg hne]
    have hge := scanOutVal_ge c data.reverse count
    rw [hx] at hge
    rw [hx]
    exact ⟨x, hge, rfl⟩

theorem velocity_fail_stops_w :
    ∃ x, 7 ≤ x ∧ velocityLoop (fun _ => PageFetch.exn) 0 1 0 7 [] = (x, [1]) :=
  velocity_fail_stops (fun _ => PageFetch.exn) 0 0 0 7 []
    (by decide) (Or.inl True.intro)

/-- C7: if the search request fails — transport failure, decoding failure,
or a non-success status — then `fetch_repos` returns the empty list, and
the scan block consequently produces the empty row list; both are total
functions, so nothing is raised to the caller. -/
theorem scan_degrades_empty (sr : SearchResult) (fs : Repo → Nat → PageFetch)
    (c : Int) (h : searchFails sr) :
    fetch_repos sr = [] ∧ run_scan sr fs c = [] := by
  have hempty : fetch_repos sr = [] := by
    cases sr with
    | exn => rfl
    | resp status items =>
      have h' : status ≠ 200 := h
      simp [fetch_repos, h']
  refine ⟨hempty, ?_⟩
  unfold run_scan
  rw [hempty]
  simp

theorem scan_degrades_empty_w :
    fetch_repos (SearchResult.resp 500 none) = [] ∧
      run_scan (SearchResult.resp 500 none) (fun _ _ => PageFetch.exn) 0 = [] :=
  scan_degrades_empty (SearchResult.resp 500 none) (fun _ _ => PageFetch.exn) 0
    (by show (500 : Nat) ≠ 200; decide)

/-- C8: for every search outcome, the scan produces exactly one row per
returned repository — the rows are a permutation of `mkRow` mapped over
the repository list in input order, so repositories whose estimation ended
early with velocity 0 are included and classified from velocity 0 — and
the returned row set is sorted descending by velocity. -/
theorem run_scan_rows (sr : SearchResult) (fs : Repo → Nat → PageFetch) (c : Int) :
    (run_scan sr fs c).length = (fetch_repos sr).length ∧
    List.Perm (run_scan sr fs c) ((fetch_repos sr).map (mkRow fs c)) ∧
    List.Pairwise (fun a b => b.velocity ≤ a.velocity) (run_scan sr fs c) := by
  have hperm : List.Perm (run_scan sr fs c) ((fetch_repos sr).map (mkRow fs c)) :=
    List.mergeSort_perm _ _
  refine ⟨by rw [hperm.length_eq, List.length_map], hperm, ?_⟩
  have htrans : ∀ a b d : ScanRow, velGe a b → velGe b d → velGe a d := by
    intro a b d hab hbd
    simp only [velGe, decide_eq_true_eq] at hab hbd ⊢
    omega
  have htotal : ∀ a b : ScanRow, velGe a b || velGe b a := by
    intro a b
    simp only [velGe, Bool.or_eq_true, decide_eq_true_eq]
    omega
  have hs := List.sorted_mergeSort htrans htotal ((fetch_repos sr).map (mkRow fs c))
  refine List.Pairwise.imp ?_ hs
  intro a b hab
  simpa [velGe] using hab

/-- On a page whose scanned (already reversed) events all parse, the scan
counts the longest entirely-in-window initial segment: it exhausts the page
when every event is strictly after the cutoff, and otherwise returns as
soon as the first at-or-before-cutoff event is reached. -/
theorem scanPage_ts (c : Int) :
    ∀ (l : List Int) (count : Nat),
      scanPage c (l.map StarEvent.ts) count =
        if (l.takeWhile (fun t => decide (c < t))).length = l.length
        then ScanOut.cont (count + l.length)
        else ScanOut.ret (count + (l.takeWhile (fun t => decide (c < t))).length)
  | [], count => by simp [scanPage]
  | t :: rest, count => by
    simp only [List.map_cons, scanPage]
    by_cases h : c < t
    · rw [if_pos h, scanPage_ts c rest (count + 1),
        List.takeWhile_cons_of_pos (by simpa using h)]
      simp only [List.length_cons]
      by_cases hk : (rest.takeWhile (fun t => decide (c < t))).length = rest.length
      · rw [if_pos hk, if_pos (by omega)]
        congr 1
        omega
      · rw [if_neg hk, if_neg (by omega)]
        congr 1
        omega
    · rw [if_neg h, List.takeWhile_cons_of_neg (by simpa using h)]
      simp only [List.length_nil, List.length_cons]
      rw [if_neg (by omega)]
      rfl

/-- Two adjacent contiguous slices of a list concatenate to one slice. -/
theorem slice_append {α : Type} (l : List α) (A B C : Nat) (hAB : A ≤ B) (hBC : B ≤ C) :
    (l.take B).drop A ++ (l.take C).drop B = (l.take C).drop A := by
  have h1 : l.take B = (l.take C).take B := by
    rw [List.take_take, Nat.min_eq_left hBC]
  rw [h1]
  generalize l.take C = m
  rw [List.drop_take]
  have h2 : (m.drop A).drop (B - A) = m.drop B := by
    rw [List.drop_drop]
    congr 1
    omega
  rw [← h2, List.take_append_drop]

theorem pageSlice_map_ts (tl : List Int) (p : Nat) :
    pageSlice (tl.map StarEvent.ts) p = (sliceTD tl p 1).map StarEvent.ts := by
  simp [pageSlice, sliceTD, List.map_take, List.map_drop]

/-- On a weakly descending list, the in-window initial segment contains
every in-window element: its length is the in-window count. -/
theorem takeWhile_eq_countP_of_desc (c : Int) :
    ∀ (L : List Int), List.Pairwise (fun a b => b ≤ a) L →
      (L.takeWhile (fun t => decide (c < t))).length =
        L.countP (fun t => decide (c < t))
  | [], _ => rfl
  | x :: xs, h => by
    obtain ⟨hx, hxs⟩ := List.pairwise_cons.mp h
    by_cases hcx : c < x
    · rw [List.takeWhile_cons_of_pos (by simpa using hcx),
        List.countP_cons_of_pos _ _ (by simpa using hcx)]
      simp [takeWhile_eq_countP_of_desc c xs hxs]
    · rw [List.takeWhile_cons_of_neg (by simpa using hcx),
        List.countP_cons_of_neg _ _ (by simpa using hcx)]
      simp only [List.length_nil]
      symm
      rw [List.countP_eq_zero]
      intro a ha
      simp only [decide_eq_true_eq]
      have := hx a ha
      omega

/-- Dropping `d` oldest elements of a strictly ascending list leaves
`min W (length - d)` in-window elements, `W` the full in-window count. -/
theorem countP_drop_of_asc (c : Int) :
    ∀ (l : List Int) (d : Nat), List.Pairwise (· < ·) l →
      (l.drop d).countP (fun t => decide (c < t)) =
        min (l.countP (fun t => decide (c < t))) (l.length - d)
  | l, 0, _ => by
    simp only [List.drop_zero, Nat.sub_zero]
    exact (Nat.min_eq_left (List.countP_le_length _)).symm
  | [], _ + 1, _ => by simp
  | x :: xs, d + 1, h => by
    obtain ⟨hx, hxs⟩ := List.pairwise_cons.mp h
    rw [List.drop_succ_cons, countP_drop_of_asc c xs d hxs]
    by_cases hcx : c < x
    · have hall : xs.countP (fun t => decide (c < t)) = xs.length := by
        rw [List.countP_eq_length]
        intro a ha
        simp only [decide_eq_true_eq]
        exact lt_trans hcx (hx a ha)
      rw [List.countP_cons_of_pos _ _ (by simpa using hcx), hall]
      simp only [List.length_cons]
      omega
    · rw [List.countP_cons_of_neg _ _ (by simpa using hcx)]
      simp only [List.length_cons]
      omega

theorem takeWhile_eq_of_length_eq {α : Type} (p : α → Bool) :
    ∀ l : List α, (l.takeWhile p).length = l.length → l.takeWhile p = l
  | [], _ => rfl
  | x :: xs, h => by
    by_cases hx : p x
    · rw [List.takeWhile_cons_of_pos hx] at h ⊢
      simp only [List.length_cons] at h
      rw [takeWhile_eq_of_length_eq p xs (by omega)]
    · rw [List.takeWhile_cons_of_neg hx] at h
      simp only [List.length_nil, List.length_cons] at h
      omega

/-- Under a fetch oracle honestly paginating the event history `tl`
(strictly ascending or not), the page walk starting at page `p` with
`pc` pages already checked counts the longest in-window initial segment
of the events it can reach, scanned newest first: the reach is the slice
of pages `p - (5 - pc) + 1 .. p`, reversed.  The hypothesis says page `p`
is nonempty in the history. -/
theorem velocityLoop_honest_count (tl : List Int) (c : Int) :
    ∀ (p pc count : Nat) (log : List Nat), 100 * (p - 1) < tl.length →
      (velocityLoop (honestFetch (tl.map StarEvent.ts)) c p pc count log).1 =
        count +
          (((sliceTD tl p (5 - pc)).reverse).takeWhile (fun t => decide (c < t))).length
  | 0, pc, count, log, _ => by
    simp [velocityLoop_zero, sliceTD]
  | p + 1, pc, count, log, hp => by
    have hp' : 100 * p < tl.length := by omega
    by_cases hpc : pc < 5
    · have hfe : honestFetch (tl.map StarEvent.ts) (p + 1) =
          PageFetch.resp 200 ((sliceTD tl (p + 1) 1).map StarEvent.ts) := by
        rw [honestFetch, pageSlice_map_ts]
      have hne : sliceTD tl (p + 1) 1 ≠ [] := by
        intro hcon
        have hcon' := congrArg List.length hcon
        simp only [sliceTD, List.length_drop, List.length_take, List.length_nil] at hcon'
        omega
      rw [velocityLoop_succ, if_pos hpc, hfe]
      dsimp only
      rw [if_neg (by simp)]
      rw [if_neg (by simpa using hne)]
      rw [show ((sliceTD tl (p + 1) 1).map StarEvent.ts).reverse =
            ((sliceTD tl (p + 1) 1).reverse).map StarEvent.ts from by
          rw [List.map_reverse]]
      rw [scanPage_ts]
      have hdec : sliceTD tl (p + 1) (5 - pc) =
          sliceTD tl p (5 - pc - 1) ++ sliceTD tl (p + 1) 1 := by
        unfold sliceTD
        rw [show 100 * (p + 1 - 1) = 100 * p from by omega,
          show 100 * (p - (5 - pc - 1)) = 100 * (p + 1 - (5 - pc)) from by omega]
        exact (slice_append tl (100 * (p + 1 - (5 - pc))) (100 * p) (100 * (p + 1))
          (by omega) (by omega)).symm
      set L := (sliceTD tl (p + 1) 1).reverse with hL
      by_cases hk : (L.takeWhile (fun t => decide (c < t))).length = L.length
      · rw [if_pos hk]
        dsimp only
        have ih := velocityLoop_honest_count tl c p (pc + 1) (count + L.length)
          (log ++ [p + 1]) (by omega)
        rw [show 5 - (pc + 1) = 5 - pc - 1 from by omega] at ih
        rw [ih, hdec, List.reverse_append]
        have hfull : L.takeWhile (fun t => decide (c < t)) = L :=
          takeWhile_eq_of_length_eq _ L hk
        have hall : ∀ a ∈ L, (fun t => decide (c < t)) a = true :=
          List.takeWhile_eq_self_iff.mp hfull
        rw [List.takeWhile_append_of_pos hall, List.length_append]
        omega
      · rw [if_neg hk]
        dsimp only
        rw [hdec, List.reverse_append, List.takeWhile_append, if_neg hk]
    · rw [velocityLoop_succ, if_neg hpc]
      have hnil : sliceTD tl (p + 1) (5 - pc) = [] := by
        apply List.eq_nil_of_length_eq_zero
        have hb : 5 - pc = 0 := by omega
        rw [hb]
        simp only [sliceTD, List.length_drop, List.length_take]
        omega
      rw [hnil]
      simp

set_option maxRecDepth 10000 in
/-- C2 counterexample: an honest 100-event history whose scan order is
strictly descending newest-to-oldest, with all 100 events strictly after
the cutoff — a count plainly reachable within the 5-page budget — yet the
estimator returns 0: with `total_stars = 100` it starts at page 2, which
is past the end of the history, and the empty page ends the walk. -/
theorem velocity_exact_cex :
    List.Sorted (· < ·) ((List.range 100).map Int.ofNat) ∧
    ((List.range 100).map Int.ofNat).countP (fun t => decide ((-1 : Int) < t)) = 100 ∧
    (get_star_velocity
        (honestFetch (((List.range 100).map Int.ofNat).map StarEvent.ts))
        (-1) 100).1 = 0 ∧
    (get_star_velocity
        (honestFetch (((List.range 100).map Int.ofNat).map StarEvent.ts))
        (-1) 100).1 ≠
      ((List.range 100).map Int.ofNat).countP (fun t => decide ((-1 : Int) < t)) := by
  refine ⟨by decide, by decide, by decide, by decide⟩

/-- C2 (amended): for an honest event stream strictly descending in the
newest-to-oldest scan order (`tl` is the history oldest first, strictly
ascending), provided `total_stars` is not a multiple of 100 and is at most
40000 so that the start page is the true last page, the estimator returns
exactly `min W R`: the exact number `W` of events strictly after the cutoff
whenever `W` is reachable within the 5-page budget of the newest end
(`R = total mod 100 + 400` events at most, not 500), and the reach `R`
itself — an undercount — when `W` exceeds it.  An event exactly at the
cutoff instant is out-of-window (the test is strict `>`). -/
theorem velocity_honest_exact (tl : List Int) (c : Int)
    (hsort : List.Sorted (· < ·) tl) (hmod : ¬ (100 ∣ tl.length))
    (hle : tl.length ≤ 40000) :
    (get_star_velocity (honestFetch (tl.map StarEvent.ts)) c tl.length).1 =
      min (tl.countP (fun t => decide (c < t)))
        (tl.length - 100 * (tl.length / 100 - 4)) := by
  have hm : tl.length % 100 ≠ 0 := by
    intro h
    exact hmod (Nat.dvd_of_mod_eq_zero h)
  have hn0 : ¬ (tl.length = 0) := by omega
  unfold get_star_velocity
  rw [if_neg hn0]
  have hlp : lastPage tl.length = tl.length / 100 + 1 := by
    unfold lastPage
    rw [if_neg (by omega)]
  rw [hlp]
  have hcount := velocityLoop_honest_count tl c (tl.length / 100 + 1) 0 0 [] (by omega)
  simp only [Nat.sub_zero] at hcount
  rw [hcount]
  have htake : tl.take (100 * (tl.length / 100 + 1)) = tl :=
    List.take_of_length_le (by omega)
  have hslice : sliceTD tl (tl.length / 100 + 1) 5 =
      tl.drop (100 * (tl.length / 100 - 4)) := by
    unfold sliceTD
    rw [htake, show 100 * (tl.length / 100 + 1 - 5) = 100 * (tl.length / 100 - 4) from
      by omega]
  rw [hslice]
  have hdesc : List.Pairwise (fun a b : Int => b ≤ a)
      ((tl.drop (100 * (tl.length / 100 - 4))).reverse) := by
    have h1 : List.Pairwise (fun a b : Int => a < b)
        (tl.drop (100 * (tl.length / 100 - 4))) :=
      List.Pairwise.sublist (List.drop_sublist _ tl) hsort
    have h2 : List.Pairwise (fun a b : Int => b < a)
        ((tl.drop (100 * (tl.length / 100 - 4))).reverse) :=
      List.pairwise_reverse.mpr h1
    exact h2.imp (fun hab => le_of_lt hab)
  rw [takeWhile_eq_countP_of_desc c _ hdesc, List.countP_reverse,
    countP_drop_of_asc c tl _ hsort]
  exact Nat.zero_add _

theorem velocity_honest_exact_w :
    List.Sorted (· < ·) ([1, 5, 9] : List Int) ∧
    ¬ (100 ∣ ([1, 5, 9] : List Int).length) ∧
    ([1, 5, 9] : List Int).length ≤ 40000 ∧
    (get_star_velocity (honestFetch (([1, 5, 9] : List Int).map StarEvent.ts)) 4
        ([1, 5, 9] : List Int).length).1 =
      min (([1, 5, 9] : List Int).countP (fun t => decide ((4 : Int) < t)))
        (([1, 5, 9] : List Int).length -
          100 * (([1, 5, 9] : List Int).length / 100 - 4)) :=
  ⟨by decide, by decide, by decide,
    velocity_honest_exact [1, 5, 9] 4 (by decide) (by decide) (by decide)⟩
